import Mathlib

/-!
Verification of the SSE (server-sent events) core of this repository:
the client registry (`client-manager.ts`), the event formatter/dispatcher
(`event-dispatcher.ts`) and the orchestrating service (`sse-service.ts`).

JavaScript `Map` and `Set` are modelled as insertion-ordered association
lists / lists with unique keys, which matches their iteration semantics.
Timestamps (`Date.getTime()`) are modelled as integers (milliseconds).
-/

set_option maxHeartbeats 1000000

/-- Lookup in a JavaScript Map modelled as an association list
(first entry with the matching key; keys are unique in a real Map). -/
def mapGet {α : Type} : List (String × α) → String → Option α
  | [], _ => none
  | (k, v) :: rest, key => if k = key then some v else mapGet rest key

/-- JavaScript Map.set: update the value in place when the key is present,
append a fresh entry otherwise (insertion order preserved). -/
def mapSet {α : Type} : List (String × α) → String → α → List (String × α)
  | [], key, val => [(key, val)]
  | (k, v) :: rest, key, val =>
    if k = key then (k, val) :: rest else (k, v) :: mapSet rest key val

/-- JavaScript Map.delete: drop the entry with the given key. -/
def mapDelete {α : Type} (l : List (String × α)) (k : String) : List (String × α) :=
  l.filter (fun p => p.1 ≠ k)

/-- The keys of a modelled Map, in insertion order. -/
def keysOf {α : Type} (l : List (String × α)) : List String :=
  l.map (fun p => p.1)

/-- JavaScript Set.add: no-op when the element is present, append otherwise. -/
def setAdd (s : List String) (x : String) : List String :=
  if x ∈ s then s else s ++ [x]

/-- JavaScript Set.delete: drop the element. -/
def setDelete (s : List String) (x : String) : List String :=
  s.filter (fun y => y ≠ x)

/-- JavaScript truthiness for an optional string field: `if (x) use x`.
`undefined` and the empty string are falsy. -/
def truthyStr : Option String → Option String
  | none => none
  | some s => if s = "" then none else some s

/-- JavaScript truthiness for an optional numeric field: `if (x) use x`.
`undefined` and `0` are falsy. -/
def truthyNum : Option Int → Option Int
  | none => none
  | some r => if r = 0 then none else some r

/-- The write end of the client's stream
(`ReadableStreamDefaultController<Uint8Array>` in `types/sse.ts`): opaque to
the core, which only enqueues encoded messages through it. `failing` models a
controller whose `enqueue` throws; `written` records the delivered text. -/
structure Controller where
  failing : Bool
  written : List String
deriving DecidableEq, Repr

/-- `SSEClient` from `types/sse.ts`: identity and connection state of one
subscriber. The opaque `response` field does not affect any modelled
operation and is omitted. Timestamps are in milliseconds. -/
structure SSEClient where
  id : String
  userId : Option String
  sessionId : Option String
  controller : Controller
  connectedAt : Int
  lastPing : Option Int
deriving DecidableEq, Repr

/-- Payload universe for `SSEEvent.data` (typed `unknown` in the source):
strings pass through the dispatcher unchanged, the other shapes go through
`JSON.stringify`. Flat string-valued objects cover the payloads the system
builds. -/
inductive EventData where
  | str (s : String)
  | num (n : Int)
  | obj (fields : List (String × String))
deriving DecidableEq, Repr

/-- `SSEEvent` from `types/sse.ts`. -/
structure SSEEvent where
  type : String
  data : EventData
  id : Option String
  retry : Option Int
deriving DecidableEq, Repr

/-- `SSEMessage` from `types/sse.ts`: the intermediate record
`formatSSEMessage` builds before emitting the wire text. -/
structure SSEMessage where
  event : Option String
  data : String
  id : Option String
  retry : Option Int
deriving DecidableEq, Repr

/-- `ClientFilter` from `types/sse.ts`. -/
structure ClientFilter where
  userId : Option String := none
  sessionId : Option String := none
  clientIds : Option (List String) := none
deriving DecidableEq, Repr

/-- `SSEServiceConfig` from `types/sse.ts`. -/
structure SSEServiceConfig where
  heartbeatInterval : Int
  clientTimeoutMs : Int
  maxClients : Nat
deriving DecidableEq, Repr

/-- `SSEMetrics` from `types/sse.ts`. -/
structure SSEMetrics where
  activeConnections : Nat
  totalConnections : Nat
  eventsDispatched : Nat
  errors : Nat
deriving DecidableEq, Repr

/-- The mutable state of `SSEClientManager` (`client-manager.ts`): the
primary client map, the two secondary indexes and the metrics counters. -/
structure ManagerState where
  clients : List (String × SSEClient)
  userClientMap : List (String × List String)
  sessionClientMap : List (String × List String)
  totalConnections : Nat
  eventsDispatched : Nat
  errors : Nat
deriving DecidableEq, Repr

/-- The state of a freshly constructed `SSEClientManager`. -/
def emptyManager : ManagerState :=
  { clients := [], userClientMap := [], sessionClientMap := [],
    totalConnections := 0, eventsDispatched := 0, errors := 0 }

/-- The `if (client.userId) { ensure set exists; add id }` pattern used by
`addClient` for both secondary indexes. -/
def indexAdd (m : List (String × List String)) (key : Option String)
    (id : String) : List (String × List String) :=
  match key with
  | none => m
  | some u =>
    let s := match mapGet m u with
      | none => []
      | some s => s
    mapSet m u (setAdd s id)

/-- The `if (client.userId) { delete id from set; drop key if empty }`
pattern used by `removeClient` for both secondary indexes. -/
def indexRemove (m : List (String × List String)) (key : Option String)
    (id : String) : List (String × List String) :=
  match key with
  | none => m
  | some u =>
    match mapGet m u with
    | none => m
    | some s =>
      let s := setDelete s id
      if s.isEmpty then mapDelete m u else mapSet m u s

/-- `SSEClientManager.addClient`: throws when the registry is full
(modelled as the error result, state unchanged since the throw precedes any
mutation), otherwise inserts into the primary map, bumps
`totalConnections` and indexes the truthy `userId`/`sessionId` fields. -/
def addClient (cfg : SSEServiceConfig) (st : ManagerState) (c : SSEClient) :
    Except String Unit × ManagerState :=
  if st.clients.length ≥ cfg.maxClients then
    (Except.error ("Maximum client limit reached: " ++ toString cfg.maxClients), st)
  else
    (Except.ok (),
      { st with
        clients := mapSet st.clients c.id c,
        totalConnections := st.totalConnections + 1,
        userClientMap := indexAdd st.userClientMap (truthyStr c.userId) c.id,
        sessionClientMap := indexAdd st.sessionClientMap (truthyStr c.sessionId) c.id })

/-- `SSEClientManager.removeClient`: returns `false` when the id is absent,
otherwise deletes the client from the primary map, removes it from its
secondary index sets (dropping a key whose set becomes empty) and returns
`true`. Closing the controller only touches the now-unreachable sink and is
not reflected in the modelled state; a close failure is swallowed. -/
def removeClient (st : ManagerState) (clientId : String) : Bool × ManagerState :=
  match mapGet st.clients clientId with
  | none => (false, st)
  | some client =>
    (true,
      { st with
        clients := mapDelete st.clients clientId,
        userClientMap := indexRemove st.userClientMap (truthyStr client.userId) clientId,
        sessionClientMap := indexRemove st.sessionClientMap (truthyStr client.sessionId) clientId })

/-- `SSEClientManager.getClient`. -/
def getClient (st : ManagerState) (clientId : String) : Option SSEClient :=
  mapGet st.clients clientId

/-- `SSEClientManager.getClientsByFilter`: an explicit (truthy, possibly
empty) `clientIds` list short-circuits; otherwise the truthy `userId` and
`sessionId` branches both contribute, resolving index members through the
primary map and skipping unresolved ids. -/
def getClientsByFilter (st : ManagerState) (filter : ClientFilter) :
    List SSEClient :=
  match filter.clientIds with
  | some ids => ids.filterMap (fun id => mapGet st.clients id)
  | none =>
    let fromUser : List SSEClient :=
      match truthyStr filter.userId with
      | some u =>
        match mapGet st.userClientMap u with
        | some ids => ids.filterMap (fun id => mapGet st.clients id)
        | none => []
      | none => []
    let fromSession : List SSEClient :=
      match truthyStr filter.sessionId with
      | some s =>
        match mapGet st.sessionClientMap s with
        | some ids => ids.filterMap (fun id => mapGet st.clients id)
        | none => []
      | none => []
    fromUser ++ fromSession

/-- `SSEClientManager.getAllClients`. -/
def getAllClients (st : ManagerState) : List SSEClient :=
  st.clients.map (fun p => p.2)

/-- `SSEClientManager.getClientCount`. -/
def getClientCount (st : ManagerState) : Nat :=
  st.clients.length

/-- `SSEClientManager.getMetrics`. -/
def getMetrics (st : ManagerState) : SSEMetrics :=
  { activeConnections := st.clients.length,
    totalConnections := st.totalConnections,
    eventsDispatched := st.eventsDispatched,
    errors := st.errors }

/-- `SSEClientManager.incrementEventsDispatched`. -/
def incrementEventsDispatched (st : ManagerState) : ManagerState :=
  { st with eventsDispatched := st.eventsDispatched + 1 }

/-- `SSEClientManager.incrementErrors`. -/
def incrementErrors (st : ManagerState) : ManagerState :=
  { st with errors := st.errors + 1 }

/-- Removal of a list of ids via repeated `removeClient`, the shared shape
of `cleanup` and the eviction pass of `removeStaleClients`. -/
def removeAll (st : ManagerState) (ids : List String) : ManagerState :=
  ids.foldl (fun s id => (removeClient s id).2) st

/-- `SSEClientManager.cleanup`: snapshot the keys, then remove each. -/
def cleanup (st : ManagerState) : ManagerState :=
  removeAll st (keysOf st.clients)

/-- Idle time used by `removeStaleClients`: `now - lastPing` when a ping
was recorded, `now - connectedAt` otherwise. -/
def idleTime (now : Int) (c : SSEClient) : Int :=
  match c.lastPing with
  | some p => now - p
  | none => now - c.connectedAt

/-- `SSEClientManager.removeStaleClients`: collect the ids whose idle time
strictly exceeds the configured timeout, evict each via `removeClient`,
return the number collected. `now` stands for the `new Date()` taken at the
start of the scan. -/
def removeStaleClients (cfg : SSEServiceConfig) (now : Int) (st : ManagerState) :
    Nat × ManagerState :=
  let staleClients := st.clients.filterMap
    (fun p => if idleTime now p.2 > cfg.clientTimeoutMs then some p.1 else none)
  (staleClients.length, removeAll st staleClients)

/-- Hexadecimal digit, lower case, as produced by `JSON.stringify` control
escapes. -/
def hexDigit (n : Nat) : Char :=
  if n < 10 then Char.ofNat (48 + n) else Char.ofNat (87 + n)

/-- One character of a JSON string literal as `JSON.stringify` encodes it. -/
def escapeChar (c : Char) : String :=
  if c = '"' then "\\\""
  else if c = '\\' then "\\\\"
  else if c = '\n' then "\\n"
  else if c = '\r' then "\\r"
  else if c = '\t' then "\\t"
  else if c = Char.ofNat 8 then "\\b"
  else if c = Char.ofNat 12 then "\\f"
  else if c.toNat < 32 then
    "\\u00" ++ String.singleton (hexDigit (c.toNat / 16)) ++
      String.singleton (hexDigit (c.toNat % 16))
  else String.singleton c

/-- The body of a JSON string literal as `JSON.stringify` encodes it. -/
def escapeString (s : String) : String :=
  String.join (s.data.map escapeChar)

/-- JavaScript `str.split("\n")` on the character list: splitting on every
newline, keeping empty segments (so the empty string yields one empty
segment, exactly like `"".split("\n")`). -/
def splitLinesChars : List Char → List (List Char)
  | [] => [[]]
  | c :: rest =>
    let r := splitLinesChars rest
    if c = '\n' then [] :: r
    else
      match r with
      | [] => [[c]]
      | line :: more => (c :: line) :: more

/-- JavaScript `str.split("\n")`, used by `formatSSEMessage` to emit one
`data:` line per payload line. -/
def splitLines (s : String) : List String :=
  (splitLinesChars s.data).map (fun cs => String.mk cs)

/-- The payload serialization step of `formatSSEMessage`:
`typeof event.data === "string" ? event.data : JSON.stringify(event.data)`. -/
def serializeData : EventData → String
  | .str s => s
  | .num n => toString n
  | .obj fields =>
    "\x7b" ++
      String.intercalate ","
        (fields.map (fun p =>
          "\"" ++ escapeString p.1 ++ "\":\"" ++ escapeString p.2 ++ "\"")) ++
      "\x7d"

/-- `SSEEventDispatcher.formatSSEMessage`: build the `SSEMessage` record
(the `id` and `retry` fields only when truthy), then emit the optional
`event:`, `id:` and `retry:` lines, one `data:` line per line of the
serialized payload, and the terminating blank line. -/
def formatSSEMessage (event : SSEEvent) : String :=
  let message : SSEMessage :=
    { event := some event.type,
      data := serializeData event.data,
      id := truthyStr event.id,
      retry := truthyNum event.retry }
  let formatted := ""
  let formatted := match truthyStr message.event with
    | some t => formatted ++ "event: " ++ t ++ "\n"
    | none => formatted
  let formatted := match truthyStr message.id with
    | some i => formatted ++ "id: " ++ i ++ "\n"
    | none => formatted
  let formatted := match truthyNum message.retry with
    | some r => formatted ++ "retry: " ++ toString r ++ "\n"
    | none => formatted
  let formatted := (splitLines message.data).foldl
    (fun acc line => acc ++ "data: " ++ line ++ "\n") formatted
  formatted ++ "\n"

/-- `SSEEventDispatcher.sendEventToClient`: format the event and enqueue the
encoded text on the client's controller; an enqueue failure is caught and
reported as `false`, leaving the client's sink as it was. -/
def sendEventToClient (client : SSEClient) (event : SSEEvent) :
    Bool × SSEClient :=
  let message := formatSSEMessage event
  if client.controller.failing then
    (false, client)
  else
    (true,
      { client with
        controller :=
          { client.controller with
            written := client.controller.written ++ [message] } })

/-- `SSEEventDispatcher.sendEventToClients`: send to every handle (each
send independent of the others), count the sends that reported success. -/
def sendEventToClients (clients : List SSEClient) (event : SSEEvent) :
    Nat × List SSEClient :=
  let results := clients.map (fun client => sendEventToClient client event)
  ((results.filter (fun r => r.1)).length, results.map (fun r => r.2))

/-- The target-resolution step of `SSEService.sendEvent`:
`filter ? getClientsByFilter(filter) : getAllClients()`. Any filter object,
even one with every field unset, takes the filtered branch. -/
def resolveTargets (st : ManagerState) (filter : Option ClientFilter) :
    List SSEClient :=
  match filter with
  | some f => getClientsByFilter st f
  | none => getAllClients st

/-- `SSEService.sendEvent`, parametrized by the fan-out call so that a
rejection of the awaited dispatch (`UnexpectedDispatchFailure`) can be
modelled: an empty target set returns 0 untouched; a successful dispatch
bumps `eventsDispatched`; a dispatch failure bumps `errors` and re-raises. -/
def sendEventWith (dispatch : List SSEClient → SSEEvent → Except String Nat)
    (st : ManagerState) (event : SSEEvent) (filter : Option ClientFilter) :
    Except String Nat × ManagerState :=
  let clients := resolveTargets st filter
  if clients.length = 0 then
    (Except.ok 0, st)
  else
    match dispatch clients event with
    | Except.ok n => (Except.ok n, incrementEventsDispatched st)
    | Except.error msg => (Except.error msg, incrementErrors st)

/-- `SSEService.sendEvent` with the dispatcher's real fan-out, which never
rejects (every per-client failure is caught inside `sendEventToClient`). -/
def sendEvent (st : ManagerState) (event : SSEEvent)
    (filter : Option ClientFilter) : Except String Nat × ManagerState :=
  sendEventWith (fun cs e => Except.ok (sendEventToClients cs e).1) st event filter

/-- The state of `SSEService`: the composed manager state, the immutable
configuration and the two scheduler timers (modelled by whether each
interval is currently set). -/
structure ServiceState where
  config : SSEServiceConfig
  manager : ManagerState
  heartbeatRunning : Bool
  cleanupRunning : Bool
deriving DecidableEq, Repr

/-- The `SSEService` constructor: empty manager, both loops started. -/
def SSEService.new (cfg : SSEServiceConfig) : ServiceState :=
  { config := cfg, manager := emptyManager,
    heartbeatRunning := true, cleanupRunning := true }

/-- `SSEService.shutdown`: stop both loops, then `cleanup` the manager. -/
def SSEService.shutdown (svc : ServiceState) : ServiceState :=
  { svc with
    manager := cleanup svc.manager,
    heartbeatRunning := false,
    cleanupRunning := false }

/-- `SSEService.reset`: `cleanup` the manager, then restart both loops.
The configuration is untouched. -/
def SSEService.reset (svc : ServiceState) : ServiceState :=
  { svc with
    manager := cleanup svc.manager,
    heartbeatRunning := true,
    cleanupRunning := true }

/-! ### Lemmas about the Map and Set primitives -/

theorem mapGet_eq_none_iff {α : Type} {l : List (String × α)} {k : String} :
    mapGet l k = none ↔ k ∉ keysOf l := by
  induction l with
  | nil => simp [mapGet, keysOf]
  | cons p rest ih =>
    obtain ⟨k1, v1⟩ := p
    by_cases h : k1 = k
    · subst h; simp [mapGet, keysOf]
    · simp [mapGet, keysOf, h, ih, Ne.symm h]

theorem mapGet_mem {α : Type} {l : List (String × α)} {k : String} {v : α}
    (h : mapGet l k = some v) : (k, v) ∈ l := by
  induction l with
  | nil => simp [mapGet] at h
  | cons p rest ih =>
    obtain ⟨k1, v1⟩ := p
    by_cases hk : k1 = k
    · subst hk
      simp [mapGet] at h
      simp [h]
    · simp [mapGet, hk] at h
      exact List.mem_cons_of_mem _ (ih h)

theorem mapGet_of_mem_nodup {α : Type} {l : List (String × α)}
    (hnd : (keysOf l).Nodup) {p : String × α} (hp : p ∈ l) :
    mapGet l p.1 = some p.2 := by
  induction l with
  | nil => simp at hp
  | cons q rest ih =>
    obtain ⟨k1, v1⟩ := q
    simp [keysOf] at hnd
    rcases List.mem_cons.mp hp with h | h
    · subst h; simp [mapGet]
    · have hne : k1 ≠ p.1 := by
        intro hcontra
        exact hnd.1 p.2 (by simpa [hcontra] using h)
      simp [mapGet, hne]
      exact ih (by simpa [keysOf] using hnd.2) h

theorem mapSet_of_get_none {α : Type} {l : List (String × α)} {k : String}
    {v : α} (h : mapGet l k = none) : mapSet l k v = l ++ [(k, v)] := by
  induction l with
  | nil => simp [mapSet]
  | cons p rest ih =>
    obtain ⟨k1, v1⟩ := p
    by_cases hk : k1 = k
    · simp [mapGet, hk] at h
    · simp [mapGet, hk] at h
      simp [mapSet, hk, ih h]

theorem keysOf_mem_of_mem {α : Type} {l : List (String × α)} {q : String × α}
    (h : q ∈ l) : q.1 ∈ keysOf l := by
  unfold keysOf
  exact List.mem_map.mpr ⟨q, h, rfl⟩

theorem mem_mapSet {α : Type} {l : List (String × α)} {k : String} {v : α}
    (hnd : (keysOf l).Nodup) {q : String × α} :
    q ∈ mapSet l k v ↔ (q ∈ l ∧ q.1 ≠ k) ∨ q = (k, v) := by
  induction l with
  | nil =>
    constructor
    · intro h
      rcases List.mem_singleton.mp h with rfl
      exact Or.inr rfl
    · rintro (⟨h, _⟩ | rfl)
      · simp at h
      · exact List.mem_singleton.mpr rfl
  | cons p rest ih =>
    obtain ⟨k1, v1⟩ := p
    have hcons : keysOf ((k1, v1) :: rest) = k1 :: keysOf rest := rfl
    have hnd2 := List.nodup_cons.mp (hcons ▸ hnd)
    have hk1 : k1 ∉ keysOf rest := hnd2.1
    have hndr : (keysOf rest).Nodup := hnd2.2
    by_cases hk : k1 = k
    · subst hk
      have hstep : mapSet ((k1, v1) :: rest) k1 v = (k1, v) :: rest := by
        simp [mapSet]
      rw [hstep]
      constructor
      · intro h
        rcases List.mem_cons.mp h with rfl | hq
        · exact Or.inr rfl
        · refine Or.inl ⟨List.mem_cons_of_mem _ hq, ?_⟩
          intro hcontra
          exact hk1 (hcontra ▸ keysOf_mem_of_mem hq)
      · rintro (⟨hq, hne⟩ | rfl)
        · rcases List.mem_cons.mp hq with rfl | hq
          · exact absurd rfl hne
          · exact List.mem_cons_of_mem _ hq
        · exact List.mem_cons_self _ _
    · have hstep : mapSet ((k1, v1) :: rest) k v = (k1, v1) :: mapSet rest k v := by
        simp [mapSet, hk]
      rw [hstep]
      constructor
      · intro h
        rcases List.mem_cons.mp h with rfl | hq
        · exact Or.inl ⟨List.mem_cons_self _ _, hk⟩
        · rcases (ih hndr).mp hq with ⟨hmem, hne⟩ | rfl
          · exact Or.inl ⟨List.mem_cons_of_mem _ hmem, hne⟩
          · exact Or.inr rfl
      · rintro (⟨hq, hne⟩ | rfl)
        · rcases List.mem_cons.mp hq with rfl | hq
          · exact List.mem_cons_self _ _
          · exact List.mem_cons_of_mem _ ((ih hndr).mpr (Or.inl ⟨hq, hne⟩))
        · exact List.mem_cons_of_mem _ ((ih hndr).mpr (Or.inr rfl))

theorem keysOf_mapSet_of_mem {α : Type} {l : List (String × α)} {k : String}
    {v : α} (h : k ∈ keysOf l) : keysOf (mapSet l k v) = keysOf l := by
  induction l with
  | nil => simp [keysOf] at h
  | cons p rest ih =>
    obtain ⟨k1, v1⟩ := p
    by_cases hk : k1 = k
    · subst hk; simp [mapSet, keysOf]
    · simp [keysOf, Ne.symm hk] at h
      simp [mapSet, keysOf, hk]
      exact ih (by simpa [keysOf] using h)

theorem keysOf_mapSet_of_none {α : Type} {l : List (String × α)} {k : String}
    {v : α} (h : mapGet l k = none) : keysOf (mapSet l k v) = keysOf l ++ [k] := by
  rw [mapSet_of_get_none h]
  simp [keysOf]

theorem nodup_keysOf_mapSet {α : Type} {l : List (String × α)} {k : String}
    {v : α} (hnd : (keysOf l).Nodup) : (keysOf (mapSet l k v)).Nodup := by
  by_cases h : k ∈ keysOf l
  · rwa [keysOf_mapSet_of_mem h]
  · rw [keysOf_mapSet_of_none (mapGet_eq_none_iff.mpr h)]
    simp [List.nodup_append, hnd, h]

theorem mem_mapDelete {α : Type} {l : List (String × α)} {k : String}
    {q : String × α} : q ∈ mapDelete l k ↔ q ∈ l ∧ q.1 ≠ k := by
  simp [mapDelete, List.mem_filter]

theorem mapGet_mapDelete_self {α : Type} {l : List (String × α)} {k : String} :
    mapGet (mapDelete l k) k = none := by
  rw [mapGet_eq_none_iff]
  intro h
  unfold keysOf at h
  obtain ⟨p, hp, hpk⟩ := List.mem_map.mp h
  exact (mem_mapDelete.mp hp).2 hpk

theorem mapDelete_of_get_none {α : Type} {l : List (String × α)} {k : String}
    (h : mapGet l k = none) : mapDelete l k = l := by
  rw [mapGet_eq_none_iff] at h
  apply List.filter_eq_self.mpr
  intro p hp
  simp only [decide_eq_true_eq]
  intro hcontra
  exact h (hcontra ▸ keysOf_mem_of_mem hp)

theorem keysOf_mapDelete_sublist {α : Type} {l : List (String × α)} {k : String} :
    (keysOf (mapDelete l k)).Sublist (keysOf l) := by
  simpa [keysOf, mapDelete] using (List.filter_sublist l).map (fun p => p.1)

theorem nodup_keysOf_mapDelete {α : Type} {l : List (String × α)} {k : String}
    (hnd : (keysOf l).Nodup) : (keysOf (mapDelete l k)).Nodup :=
  keysOf_mapDelete_sublist.nodup hnd

theorem mem_setAdd {s : List String} {x y : String} :
    y ∈ setAdd s x ↔ y ∈ s ∨ y = x := by
  unfold setAdd
  by_cases h : x ∈ s
  · simp [h]
    intro hy; subst hy; exact h
  · simp [h]

theorem setAdd_ne_nil {s : List String} {x : String} : setAdd s x ≠ [] := by
  unfold setAdd
  by_cases h : x ∈ s
  · simp [h]
    intro hcontra
    subst hcontra
    simp at h
  · simp [h]

theorem nodup_setAdd {s : List String} {x : String} (hnd : s.Nodup) :
    (setAdd s x).Nodup := by
  unfold setAdd
  by_cases h : x ∈ s
  · simpa [h] using hnd
  · simp [h, List.nodup_append, hnd]

theorem mem_setDelete {s : List String} {x y : String} :
    y ∈ setDelete s x ↔ y ∈ s ∧ y ≠ x := by
  simp [setDelete, List.mem_filter]

theorem nodup_setDelete {s : List String} {x : String} (hnd : s.Nodup) :
    (setDelete s x).Nodup :=
  hnd.filter _

theorem setDelete_eq_nil_iff {s : List String} {x : String} :
    setDelete s x = [] ↔ ∀ y ∈ s, y = x := by
  constructor
  · intro h y hy
    by_contra hne
    have : y ∈ setDelete s x := mem_setDelete.mpr ⟨hy, hne⟩
    simp [h] at this
  · intro h
    apply List.filter_eq_nil_iff.mpr
    intro y hy
    simp [h y hy]

/-! ### Structural lemmas about removal -/

theorem removeClient_clients (st : ManagerState) (id : String) :
    ((removeClient st id).2).clients = mapDelete st.clients id := by
  unfold removeClient
  cases h : mapGet st.clients id with
  | none => simp [mapDelete_of_get_none h]
  | some c => simp

theorem removeClient_counters (st : ManagerState) (id : String) :
    ((removeClient st id).2).totalConnections = st.totalConnections ∧
    ((removeClient st id).2).eventsDispatched = st.eventsDispatched ∧
    ((removeClient st id).2).errors = st.errors := by
  unfold removeClient
  cases h : mapGet st.clients id <;> simp

theorem removeAll_clients_foldl (ids : List String) :
    ∀ st : ManagerState,
      (removeAll st ids).clients =
        ids.foldl (fun acc id => mapDelete acc id) st.clients := by
  induction ids with
  | nil => intro st; rfl
  | cons id ids ih =>
    intro st
    show (removeAll (removeClient st id).2 ids).clients = _
    rw [ih (removeClient st id).2, removeClient_clients, List.foldl_cons]

theorem foldl_mapDelete_eq_filter {α : Type} (ids : List String) :
    ∀ l : List (String × α),
      ids.foldl (fun acc id => mapDelete acc id) l =
        l.filter (fun p => decide (p.1 ∉ ids)) := by
  induction ids with
  | nil => intro l; simp
  | cons id ids ih =>
    intro l
    show ids.foldl _ (mapDelete l id) = _
    rw [ih (mapDelete l id)]
    unfold mapDelete
    rw [List.filter_filter]
    apply List.filter_congr
    intro p _
    by_cases h1 : p.1 = id <;> by_cases h2 : p.1 ∈ ids <;> simp [h1, h2]

theorem removeAll_clients (st : ManagerState) (ids : List String) :
    (removeAll st ids).clients =
      st.clients.filter (fun p => decide (p.1 ∉ ids)) := by
  rw [removeAll_clients_foldl, foldl_mapDelete_eq_filter]

theorem removeAll_counters (ids : List String) :
    ∀ st : ManagerState,
      (removeAll st ids).totalConnections = st.totalConnections ∧
      (removeAll st ids).eventsDispatched = st.eventsDispatched ∧
      (removeAll st ids).errors = st.errors := by
  induction ids with
  | nil => intro st; exact ⟨rfl, rfl, rfl⟩
  | cons id ids ih =>
    intro st
    have h1 := ih (removeClient st id).2
    have h2 := removeClient_counters st id
    refine ⟨?_, ?_, ?_⟩
    · exact h1.1.trans h2.1
    · exact h1.2.1.trans h2.2.1
    · exact h1.2.2.trans h2.2.2

theorem cleanup_clients (st : ManagerState) : (cleanup st).clients = [] := by
  unfold cleanup
  rw [removeAll_clients]
  apply List.filter_eq_nil_iff.mpr
  intro p hp
  simp only [decide_eq_true_eq, Decidable.not_not]
  exact keysOf_mem_of_mem hp

theorem cleanup_counters (st : ManagerState) :
    (cleanup st).totalConnections = st.totalConnections ∧
    (cleanup st).eventsDispatched = st.eventsDispatched ∧
    (cleanup st).errors = st.errors :=
  removeAll_counters _ st

/-! ### Concrete fixtures -/

/-- A healthy client used by concrete instances. -/
def clientA : SSEClient :=
  { id := "a", userId := some "u1", sessionId := some "s1",
    controller := { failing := false, written := [] },
    connectedAt := 0, lastPing := none }

/-- A configuration with room for a single client. -/
def cfgOne : SSEServiceConfig :=
  { heartbeatInterval := 30000, clientTimeoutMs := 120000, maxClients := 1 }

/-- A manager already holding `clientA`, i.e. full under `cfgOne`. -/
def stFull : ManagerState :=
  { emptyManager with clients := [("a", clientA)] }

/-- C4: adding a handle when the registry's current size already equals the
configured `maxClients` yields the capacity error, and the failed add leaves
the whole manager state — primary map, both indexes and the
`totalConnections` counter — unchanged. -/
theorem addClient_capacity_rejects (cfg : SSEServiceConfig) (st : ManagerState)
    (c : SSEClient) (h : st.clients.length = cfg.maxClients) :
    addClient cfg st c =
      (Except.error ("Maximum client limit reached: " ++ toString cfg.maxClients),
        st) := by
  unfold addClient
  rw [if_pos h.ge]

/-- Witness for C4 at a concrete full registry. -/
theorem addClient_capacity_rejects_witness :
    stFull.clients.length = cfgOne.maxClients ∧
    addClient cfgOne stFull clientA =
      (Except.error ("Maximum client limit reached: " ++ toString cfgOne.maxClients),
        stFull) :=
  ⟨by decide, addClient_capacity_rejects cfgOne stFull clientA (by decide)⟩

/-- C7: removing an id that is absent from the registry returns `false` and
changes nothing — no map, no index, no metrics counter; consequently a
second remove of the same id returns `false` and leaves the state reached
after the first remove untouched. -/
theorem removeClient_idempotent :
    (∀ (st : ManagerState) (id : String), mapGet st.clients id = none →
      removeClient st id = (false, st)) ∧
    (∀ (st : ManagerState) (id : String),
      removeClient (removeClient st id).2 id = (false, (removeClient st id).2)) := by
  have habsent : ∀ (st : ManagerState) (id : String),
      mapGet st.clients id = none → removeClient st id = (false, st) := by
    intro st id h
    unfold removeClient
    rw [h]
  refine ⟨habsent, ?_⟩
  intro st id
  apply habsent
  rw [removeClient_clients]
  exact mapGet_mapDelete_self

/-- Witness for C7: removing an id that was never registered. -/
theorem removeClient_idempotent_witness :
    mapGet stFull.clients "zzz" = none ∧
    removeClient stFull "zzz" = (false, stFull) :=
  ⟨by decide, removeClient_idempotent.1 stFull "zzz" (by decide)⟩

/-! ### Stale-client eviction (C5) -/

theorem eq_of_mem_keys_nodup {α : Type} {l : List (String × α)}
    (h : (keysOf l).Nodup) {p q : String × α} (hp : p ∈ l) (hq : q ∈ l)
    (hk : p.1 = q.1) : p = q := by
  have h1 := mapGet_of_mem_nodup h hp
  have h2 := mapGet_of_mem_nodup h hq
  rw [hk, h2] at h1
  obtain ⟨k1, v1⟩ := p
  obtain ⟨k2, v2⟩ := q
  simp at hk h1
  simp [hk, h1]

theorem length_filterMap_ite {α β : Type} (p : α → Prop) [DecidablePred p]
    (f : α → β) (l : List α) :
    (l.filterMap (fun a => if p a then some (f a) else none)).length =
      l.countP (fun a => decide (p a)) := by
  induction l with
  | nil => rfl
  | cons a l ih =>
    by_cases h : p a <;>
      simp [List.filterMap_cons, h, List.countP_cons, ih]

/-- C5: `removeStaleClients` evicts exactly the handles whose idle time
(`now - lastPing` when set, else `now - connectedAt`) strictly exceeds the
configured timeout — a handle exactly at the boundary survives — removes
them through the ordinary `removeClient` (so the metrics counters are
untouched), and returns the number evicted. -/
theorem removeStaleClients_exact (cfg : SSEServiceConfig) (now : Int)
    (st : ManagerState) (h : (keysOf st.clients).Nodup) :
    (removeStaleClients cfg now st).1 =
      st.clients.countP (fun p => decide (idleTime now p.2 > cfg.clientTimeoutMs)) ∧
    ((removeStaleClients cfg now st).2).clients =
      st.clients.filter (fun p => decide (idleTime now p.2 ≤ cfg.clientTimeoutMs)) ∧
    ((removeStaleClients cfg now st).2).totalConnections = st.totalConnections ∧
    ((removeStaleClients cfg now st).2).eventsDispatched = st.eventsDispatched ∧
    ((removeStaleClients cfg now st).2).errors = st.errors := by
  have h1 : (removeStaleClients cfg now st).1 =
      (st.clients.filterMap
        (fun p => if idleTime now p.2 > cfg.clientTimeoutMs then some p.1 else none)).length :=
    rfl
  have h2 : (removeStaleClients cfg now st).2 =
      removeAll st
        (st.clients.filterMap
          (fun p => if idleTime now p.2 > cfg.clientTimeoutMs then some p.1 else none)) :=
    rfl
  have hmem : ∀ p ∈ st.clients,
      (p.1 ∈ st.clients.filterMap
          (fun q => if idleTime now q.2 > cfg.clientTimeoutMs then some q.1 else none) ↔
        idleTime now p.2 > cfg.clientTimeoutMs) := by
    intro p hp
    constructor
    · intro hin
      obtain ⟨q, hq, hqe⟩ := List.mem_filterMap.mp hin
      by_cases hs : idleTime now q.2 > cfg.clientTimeoutMs
      · rw [if_pos hs] at hqe
        have : q = p := eq_of_mem_keys_nodup h hq hp (Option.some_injective _ hqe)
        rwa [this] at hs
      · rw [if_neg hs] at hqe
        exact absurd hqe (by simp)
    · intro hs
      exact List.mem_filterMap.mpr ⟨p, hp, by rw [if_pos hs]⟩
  refine ⟨?_, ?_, ?_, ?_, ?_⟩
  · rw [h1, length_filterMap_ite]
  · rw [h2, removeAll_clients]
    apply List.filter_congr
    intro p hp
    have := hmem p hp
    by_cases hs : idleTime now p.2 > cfg.clientTimeoutMs
    · simp [hs, this.mpr hs, not_le.mpr hs]
    · have hle : idleTime now p.2 ≤ cfg.clientTimeoutMs := not_lt.mp hs
      have hnotmem : p.1 ∉ st.clients.filterMap
          (fun q => if idleTime now q.2 > cfg.clientTimeoutMs then some q.1 else none) :=
        fun hcontra => hs (this.mp hcontra)
      simp [hle, hnotmem]
  · rw [h2]; exact (removeAll_counters _ st).1
  · rw [h2]; exact (removeAll_counters _ st).2.1
  · rw [h2]; exact (removeAll_counters _ st).2.2

/-- A manager with three clients: one stale (idle 150ms), one exactly at
the 100ms boundary, one fresh, under a 100ms timeout. -/
def stIdle : ManagerState :=
  { emptyManager with
    clients :=
      [("a", { id := "a", userId := none, sessionId := none,
               controller := { failing := false, written := [] },
               connectedAt := 0, lastPing := some 850 }),
       ("b", { id := "b", userId := none, sessionId := none,
               controller := { failing := false, written := [] },
               connectedAt := 0, lastPing := some 900 }),
       ("c", { id := "c", userId := none, sessionId := none,
               controller := { failing := false, written := [] },
               connectedAt := 1000, lastPing := none })] }

/-- The 100ms-timeout configuration for the stale-eviction instance. -/
def cfgShort : SSEServiceConfig :=
  { heartbeatInterval := 30000, clientTimeoutMs := 100, maxClients := 10 }

/-- Witness for C5: at `now = 1000` only the 150ms-idle client is evicted;
the client exactly at the boundary survives. -/
theorem removeStaleClients_exact_witness :
    (keysOf stIdle.clients).Nodup ∧
    (removeStaleClients cfgShort 1000 stIdle).1 =
      stIdle.clients.countP
        (fun p => decide (idleTime 1000 p.2 > cfgShort.clientTimeoutMs)) ∧
    ((removeStaleClients cfgShort 1000 stIdle).2).clients =
      stIdle.clients.filter
        (fun p => decide (idleTime 1000 p.2 ≤ cfgShort.clientTimeoutMs)) :=
  ⟨by decide,
    (removeStaleClients_exact cfgShort 1000 stIdle (by decide)).1,
    (removeStaleClients_exact cfgShort 1000 stIdle (by decide)).2.1⟩

/-! ### Dispatcher fan-out (C6) -/

theorem sendEventToClient_eq (c : SSEClient) (e : SSEEvent) :
    sendEventToClient c e =
      if c.controller.failing then (false, c)
      else
        (true,
          { c with
            controller :=
              { c.controller with
                written := c.controller.written ++ [formatSSEMessage e] } }) := by
  unfold sendEventToClient
  by_cases h : c.controller.failing <;> simp [h]

theorem sendEventToClients_eq (event : SSEEvent) :
    ∀ clients : List SSEClient,
      sendEventToClients clients event =
        (clients.countP (fun c => !c.controller.failing),
         clients.map (fun c => (sendEventToClient c event).2)) := by
  intro clients
  rw [Prod.ext_iff]
  constructor
  · show (List.filter (fun r => r.1)
        (clients.map (fun c => sendEventToClient c event))).length = _
    rw [List.filter_map, List.length_map, List.countP_eq_length_filter]
    congr 1
    apply List.filter_congr
    intro c _
    show (sendEventToClient c event).1 = _
    rw [sendEventToClient_eq]
    by_cases h : c.controller.failing <;> simp [h]
  · show List.map (fun r => r.2)
        (clients.map (fun c => sendEventToClient c event)) = _
    rw [List.map_map]
    rfl

/-- A healthy client for the fan-out instance. -/
def clientOk1 : SSEClient :=
  { id := "c1", userId := none, sessionId := none,
    controller := { failing := false, written := [] },
    connectedAt := 0, lastPing := none }

/-- A client whose sink always throws. -/
def clientBad : SSEClient :=
  { id := "c2", userId := none, sessionId := none,
    controller := { failing := true, written := [] },
    connectedAt := 0, lastPing := none }

/-- A second healthy client for the fan-out instance. -/
def clientOk2 : SSEClient :=
  { id := "c3", userId := none, sessionId := none,
    controller := { failing := false, written := [] },
    connectedAt := 0, lastPing := none }

/-- A plain payload event used by concrete dispatch instances. -/
def eventX : SSEEvent :=
  { type := "t", data := EventData.str "x", id := none, retry := none }

/-- C6: `sendEventToClients` returns the number of per-handle sends that
succeeded; a handle whose sink throws is counted as a failure and left
unchanged without affecting any other handle's send (each handle's outcome
is a function of that handle alone); the empty list yields 0 with no
writes; and with 3 handles of which one always throws it returns 2. -/
theorem sendToMany_success_count :
    (∀ (clients : List SSEClient) (event : SSEEvent),
      (sendEventToClients clients event).1 =
        clients.countP (fun c => !c.controller.failing)) ∧
    (∀ (clients : List SSEClient) (event : SSEEvent),
      (sendEventToClients clients event).2 =
        clients.map (fun c => (sendEventToClient c event).2)) ∧
    (∀ (c : SSEClient) (event : SSEEvent),
      sendEventToClient c event =
        if c.controller.failing then (false, c)
        else
          (true,
            { c with
              controller :=
                { c.controller with
                  written := c.controller.written ++ [formatSSEMessage event] } })) ∧
    (∀ event : SSEEvent, sendEventToClients [] event = (0, [])) ∧
    (sendEventToClients [clientOk1, clientBad, clientOk2] eventX).1 = 2 ∧
    ((sendEventToClients [clientOk1, clientBad, clientOk2] eventX).2.map
      (fun c => c.controller.failing)) = [false, true, false] := by
  refine ⟨?_, ?_, ?_, ?_, ?_, ?_⟩
  · intro clients event
    rw [sendEventToClients_eq]
  · intro clients event
    rw [sendEventToClients_eq]
  · intro c event
    exact sendEventToClient_eq c event
  · intro event
    rfl
  · decide
  · decide

/-! ### Wire format (C3, C8) -/

theorem truthyStr_idem (x : Option String) :
    truthyStr (truthyStr x) = truthyStr x := by
  cases x with
  | none => rfl
  | some s => by_cases h : s = "" <;> simp [truthyStr, h]

theorem truthyNum_idem (x : Option Int) :
    truthyNum (truthyNum x) = truthyNum x := by
  cases x with
  | none => rfl
  | some r => by_cases h : r = 0 <;> simp [truthyNum, h]

/-- Concatenation of a list of emitted lines. -/
def joinStrings : List String → String
  | [] => ""
  | s :: rest => s ++ joinStrings rest

/-- The data section the spec prescribes: one `data: <line>` per line of
the serialized payload. -/
def specDataLines (payload : String) : String :=
  joinStrings ((splitLines payload).map (fun line => "data: " ++ line ++ "\n"))

/-- The optional `event:` line the spec prescribes (emitted for a truthy
event type). -/
def specEventLine (e : SSEEvent) : String :=
  match truthyStr (some e.type) with
  | some t => "event: " ++ t ++ "\n"
  | none => ""

/-- The optional `id:` line the spec prescribes (emitted for a truthy id). -/
def specIdLine (e : SSEEvent) : String :=
  match truthyStr e.id with
  | some i => "id: " ++ i ++ "\n"
  | none => ""

/-- The optional `retry:` line the spec prescribes (emitted only when the
retry field is present and non-zero). -/
def specRetryLine (e : SSEEvent) : String :=
  match truthyNum e.retry with
  | some r => "retry: " ++ toString r ++ "\n"
  | none => ""

/-- The whole wire message in the spec's fixed field order: event line, id
line, retry line, data lines, one terminating blank line. -/
def specWireFormat (e : SSEEvent) : String :=
  specEventLine e ++ specIdLine e ++ specRetryLine e ++
    specDataLines (serializeData e.data) ++ "\n"

theorem foldl_data_lines (lines : List String) :
    ∀ init : String,
      lines.foldl (fun acc line => acc ++ ("data: " ++ (line ++ "\n"))) init =
        init ++ joinStrings (lines.map (fun line => "data: " ++ (line ++ "\n"))) := by
  induction lines with
  | nil => intro init; simp [joinStrings]
  | cons l ls ih =>
    intro init
    rw [List.foldl_cons, ih, List.map_cons]
    simp [joinStrings, String.append_assoc]

/-- The dispatcher's output coincides with the spec's field-ordered
assembly on every event. -/
theorem formatSSEMessage_spec (e : SSEEvent) :
    formatSSEMessage e = specWireFormat e := by
  unfold formatSSEMessage specWireFormat specEventLine specIdLine specRetryLine
    specDataLines
  simp only [truthyStr_idem, truthyNum_idem]
  cases het : truthyStr (some e.type) <;>
    cases hid : truthyStr e.id <;>
      cases hr : truthyNum e.retry <;>
        simp [het, hid, hr, foldl_data_lines, String.append_assoc,
          -String.reduceAppend]

/-- C3: `formatSSEMessage` emits the fields in the fixed order — event
line, id line, retry line (only when the retry field is present and
non-zero), one `data:` line per payload line, then exactly one terminating
blank line — and on the event with type `notification`, payload object
`message: hi` and id `abc` produces exactly the expected wire text. -/
theorem formatSSEMessage_field_order :
    (∀ e : SSEEvent, formatSSEMessage e = specWireFormat e) ∧
    formatSSEMessage
        { type := "notification", data := EventData.obj [("message", "hi")],
          id := some "abc", retry := none } =
      "event: notification\nid: abc\ndata: \x7b\"message\":\"hi\"\x7d\n\n" :=
  ⟨formatSSEMessage_spec, by decide⟩

/-- C8: the `data:` section of every formatted message carries one `data:`
line per line of the serialized payload, and a payload that serializes to
a two-line string produces exactly two `data:` lines. -/
theorem formatSSEMessage_multiline_data :
    (∀ e : SSEEvent,
      formatSSEMessage e =
        specEventLine e ++ specIdLine e ++ specRetryLine e ++
          specDataLines (serializeData e.data) ++ "\n") ∧
    (splitLines (serializeData (EventData.str "line1\nline2"))).length = 2 ∧
    formatSSEMessage
        { type := "update", data := EventData.str "line1\nline2",
          id := none, retry := none } =
      "event: update\ndata: line1\ndata: line2\n\n" :=
  ⟨fun e => formatSSEMessage_spec e, by decide, by decide⟩

/-! ### Service-level dispatch (C9, C10) -/

/-- C9: `sendEvent` resolves its target set from the filter (or all
registered handles when no filter is given); an empty target set returns 0
with the entire state — every metrics counter included — unchanged; a
non-empty set dispatches and bumps `eventsDispatched`; a failure escaping
the fan-out bumps `errors` and is re-raised to the caller. -/
theorem sendEvent_dispatch_paths :
    (∀ st : ManagerState, resolveTargets st none = getAllClients st) ∧
    (∀ (d : List SSEClient → SSEEvent → Except String Nat) (st : ManagerState)
        (e : SSEEvent) (f : Option ClientFilter),
      resolveTargets st f = [] → sendEventWith d st e f = (Except.ok 0, st)) ∧
    (∀ (d : List SSEClient → SSEEvent → Except String Nat) (st : ManagerState)
        (e : SSEEvent) (f : Option ClientFilter) (n : Nat),
      resolveTargets st f ≠ [] →
      d (resolveTargets st f) e = Except.ok n →
      sendEventWith d st e f = (Except.ok n, incrementEventsDispatched st)) ∧
    (∀ (d : List SSEClient → SSEEvent → Except String Nat) (st : ManagerState)
        (e : SSEEvent) (f : Option ClientFilter) (msg : String),
      resolveTargets st f ≠ [] →
      d (resolveTargets st f) e = Except.error msg →
      sendEventWith d st e f = (Except.error msg, incrementErrors st)) := by
  refine ⟨fun st => rfl, ?_, ?_, ?_⟩
  · intro d st e f h
    simp [sendEventWith, h]
  · intro d st e f n hne hok
    have hlen : ¬ (resolveTargets st f).length = 0 := by
      simpa [List.length_eq_zero] using hne
    simp [sendEventWith, hlen, hok]
  · intro d st e f msg hne herr
    have hlen : ¬ (resolveTargets st f).length = 0 := by
      simpa [List.length_eq_zero] using hne
    simp [sendEventWith, hlen, herr]

/-- Witness for C9: a dispatch that rejects bumps the error counter and
re-raises its message. -/
theorem sendEvent_dispatch_paths_witness :
    resolveTargets stFull none ≠ [] ∧
    sendEventWith (fun _ _ => Except.error "boom") stFull eventX none =
      (Except.error "boom", incrementErrors stFull) :=
  ⟨by decide,
    sendEvent_dispatch_paths.2.2.2 (fun _ _ => Except.error "boom") stFull
      eventX none "boom" (by decide) rfl⟩

/-- A filter object with every field unset, as built for instance by
`sseUtils.sendNotification` when called without options. -/
def emptyFilter : ClientFilter :=
  { userId := none, sessionId := none, clientIds := none }

/-- C10: passing a filter object with all of `clientIds`, `userId` and
`sessionId` unset selects no clients — `sendEvent` returns 0 and leaves
the state untouched however many clients are registered — while omitting
the filter argument resolves to all registered handles and, when at least
one is registered, dispatches to all of them and bumps
`eventsDispatched`. -/
theorem empty_filter_selects_no_clients :
    (∀ (st : ManagerState) (e : SSEEvent),
      sendEvent st e (some emptyFilter) = (Except.ok 0, st)) ∧
    (∀ st : ManagerState, resolveTargets st none = getAllClients st) ∧
    (∀ (st : ManagerState) (e : SSEEvent), st.clients ≠ [] →
      sendEvent st e none =
        (Except.ok ((getAllClients st).countP (fun c => !c.controller.failing)),
         incrementEventsDispatched st)) := by
  refine ⟨fun st e => rfl, fun st => rfl, ?_⟩
  intro st e h
  have hlen : ¬ (getAllClients st).length = 0 := by
    simpa [getAllClients, List.length_eq_zero, List.map_eq_nil_iff] using h
  show sendEventWith _ st e none = _
  simp [sendEventWith, resolveTargets, hlen, sendEventToClients_eq]

/-- Witness for C10: an unfiltered send on a populated registry dispatches
to every registered handle and bumps the dispatched counter. -/
theorem empty_filter_selects_no_clients_witness :
    stFull.clients ≠ [] ∧
    sendEvent stFull eventX none =
      (Except.ok ((getAllClients stFull).countP (fun c => !c.controller.failing)),
       incrementEventsDispatched stFull) :=
  ⟨by decide, empty_filter_selects_no_clients.2.2 stFull eventX (by decide)⟩

/-! ### Registry index invariant (C2) -/

/-- Exactness of one secondary index against the primary map: every index
entry is a non-empty duplicate-free id set whose members are registered
clients carrying the entry's key as their (truthy) indexed field, and every
registered client with a truthy indexed field is listed under that key. -/
def IndexInv (m : List (String × List String))
    (clients : List (String × SSEClient))
    (proj : SSEClient → Option String) : Prop :=
  (∀ p ∈ m, p.2 ≠ [] ∧ p.2.Nodup ∧
    ∀ id ∈ p.2, ∃ q ∈ clients, q.1 = id ∧ truthyStr (proj q.2) = some p.1) ∧
  (∀ q ∈ clients, ∀ u ∈ (truthyStr (proj q.2)).toList,
    ∃ p ∈ m, p.1 = u ∧ q.1 ∈ p.2)

/-- Well-formedness of the modelled maps: unique keys everywhere, and every
primary-map entry stored under its own client's id. -/
def ManagerWF (st : ManagerState) : Prop :=
  (keysOf st.clients).Nodup ∧ (keysOf st.userClientMap).Nodup ∧
  (keysOf st.sessionClientMap).Nodup ∧ ∀ p ∈ st.clients, p.2.id = p.1

/-- The registry invariant: both secondary indexes contain exactly the ids
of currently-registered handles grouped by their `userId`/`sessionId`, and
an index key exists only while its member set is non-empty. -/
def Invariant (st : ManagerState) : Prop :=
  ManagerWF st ∧
  IndexInv st.userClientMap st.clients (fun c => c.userId) ∧
  IndexInv st.sessionClientMap st.clients (fun c => c.sessionId)

theorem nodup_keysOf_indexAdd {m : List (String × List String)}
    {key : Option String} {id : String} (hnd : (keysOf m).Nodup) :
    (keysOf (indexAdd m key id)).Nodup := by
  cases key with
  | none => exact hnd
  | some u => exact nodup_keysOf_mapSet hnd

theorem nodup_keysOf_indexRemove {m : List (String × List String)}
    {key : Option String} {id : String} (hnd : (keysOf m).Nodup) :
    (keysOf (indexRemove m key id)).Nodup := by
  cases key with
  | none => exact hnd
  | some u =>
    cases hg : mapGet m u with
    | none => simpa [indexRemove, hg] using hnd
    | some s =>
      by_cases h : (setDelete s id).isEmpty
      · have : indexRemove m (some u) id = mapDelete m u := by
          simp [indexRemove, hg, h]
        rw [this]
        exact nodup_keysOf_mapDelete hnd
      · have : indexRemove m (some u) id = mapSet m u (setDelete s id) := by
          simp [indexRemove, hg, h]
        rw [this]
        exact nodup_keysOf_mapSet hnd

theorem invariant_emptyManager : Invariant emptyManager := by
  refine ⟨⟨?_, ?_, ?_, ?_⟩, ⟨?_, ?_⟩, ⟨?_, ?_⟩⟩ <;> simp [emptyManager, keysOf]

theorem setAdd_nil (id : String) : setAdd [] id = [id] := by simp [setAdd]

theorem indexAdd_none (m : List (String × List String)) (id : String) :
    indexAdd m none id = m := rfl

theorem indexAdd_some_new {m : List (String × List String)} {u id : String}
    (hg : mapGet m u = none) :
    indexAdd m (some u) id = m ++ [(u, [id])] := by
  have h1 : indexAdd m (some u) id = mapSet m u (setAdd [] id) := by
    simp [indexAdd, hg]
  rw [h1, setAdd_nil, mapSet_of_get_none hg]

theorem indexAdd_some_old {m : List (String × List String)} {u id : String}
    {s : List String} (hg : mapGet m u = some s) :
    indexAdd m (some u) id = mapSet m u (setAdd s id) := by
  simp [indexAdd, hg]

theorem indexRemove_none (m : List (String × List String)) (id : String) :
    indexRemove m none id = m := rfl

theorem indexRemove_some_absent {m : List (String × List String)} {u id : String}
    (hg : mapGet m u = none) : indexRemove m (some u) id = m := by
  simp [indexRemove, hg]

theorem indexRemove_some_empty {m : List (String × List String)} {u id : String}
    {s : List String} (hg : mapGet m u = some s) (h : setDelete s id = []) :
    indexRemove m (some u) id = mapDelete m u := by
  simp [indexRemove, hg, h]

theorem indexRemove_some_nonempty {m : List (String × List String)} {u id : String}
    {s : List String} (hg : mapGet m u = some s) (h : setDelete s id ≠ []) :
    indexRemove m (some u) id = mapSet m u (setDelete s id) := by
  simp [indexRemove, hg, h]

theorem indexAdd_inv {m : List (String × List String)}
    {clients : List (String × SSEClient)} {proj : SSEClient → Option String}
    {c0 : SSEClient} {id0 : String}
    (hinv : IndexInv m clients proj) (hnd : (keysOf m).Nodup)
    (hfresh : ∀ q ∈ clients, q.1 ≠ id0) :
    IndexInv (indexAdd m (truthyStr (proj c0)) id0)
      (clients ++ [(id0, c0)]) proj := by
  obtain ⟨h1, h2⟩ := hinv
  cases hkey : truthyStr (proj c0) with
  | none =>
    rw [indexAdd_none]
    constructor
    · intro p hp
      obtain ⟨hne, hndp, hmem⟩ := h1 p hp
      refine ⟨hne, hndp, ?_⟩
      intro id hid
      obtain ⟨q, hq, hq1, hq2⟩ := hmem id hid
      exact ⟨q, List.mem_append_left _ hq, hq1, hq2⟩
    · intro q hq u hu
      rcases List.mem_append.mp hq with hq | hq
      · exact h2 q hq u hu
      · rcases List.mem_singleton.mp hq with rfl
        have hu2 : u ∈ (truthyStr (proj c0)).toList := hu
        rw [hkey] at hu2
        simp at hu2
  | some u0 =>
    cases hg : mapGet m u0 with
    | none =>
      rw [indexAdd_some_new hg]
      constructor
      · intro p hp
        rcases List.mem_append.mp hp with hp | hp
        · obtain ⟨hne, hndp, hmem⟩ := h1 p hp
          refine ⟨hne, hndp, ?_⟩
          intro id hid
          obtain ⟨q, hq, hq1, hq2⟩ := hmem id hid
          exact ⟨q, List.mem_append_left _ hq, hq1, hq2⟩
        · rcases List.mem_singleton.mp hp with rfl
          refine ⟨by simp, by simp, ?_⟩
          intro id hid
          rcases List.mem_singleton.mp hid with rfl
          exact ⟨(id, c0), List.mem_append_right _ (List.mem_singleton.mpr rfl),
            rfl, hkey⟩
      · intro q hq u hu
        rcases List.mem_append.mp hq with hq | hq
        · obtain ⟨p, hp, hp1, hp2⟩ := h2 q hq u hu
          exact ⟨p, List.mem_append_left _ hp, hp1, hp2⟩
        · rcases List.mem_singleton.mp hq with rfl
          have hu2 : u ∈ (truthyStr (proj c0)).toList := hu
          rw [hkey] at hu2
          rcases List.mem_singleton.mp hu2 with rfl
          exact ⟨(u, [id0]), List.mem_append_right _ (List.mem_singleton.mpr rfl),
            rfl, List.mem_singleton.mpr rfl⟩
    | some s =>
      rw [indexAdd_some_old hg]
      have hus : (u0, s) ∈ m := mapGet_mem hg
      obtain ⟨hsne, hsnd, hsmem⟩ := h1 (u0, s) hus
      constructor
      · intro p hp
        rcases (mem_mapSet hnd).mp hp with ⟨hp, hpne⟩ | rfl
        · obtain ⟨hne, hndp, hmem⟩ := h1 p hp
          refine ⟨hne, hndp, ?_⟩
          intro id hid
          obtain ⟨q, hq, hq1, hq2⟩ := hmem id hid
          exact ⟨q, List.mem_append_left _ hq, hq1, hq2⟩
        · refine ⟨setAdd_ne_nil, nodup_setAdd hsnd, ?_⟩
          intro id hid
          rcases mem_setAdd.mp hid with hid | rfl
          · obtain ⟨q, hq, hq1, hq2⟩ := hsmem id hid
            exact ⟨q, List.mem_append_left _ hq, hq1, hq2⟩
          · exact ⟨(id, c0), List.mem_append_right _ (List.mem_singleton.mpr rfl),
              rfl, hkey⟩
      · intro q hq u hu
        rcases List.mem_append.mp hq with hq | hq
        · obtain ⟨p, hp, hp1, hp2⟩ := h2 q hq u hu
          by_cases huu : p.1 = u0
          · have hpp : p = (u0, s) := eq_of_mem_keys_nodup hnd hp hus huu
            refine ⟨(u0, setAdd s id0), (mem_mapSet hnd).mpr (Or.inr rfl), ?_, ?_⟩
            · show u0 = u
              rw [← hp1, huu]
            · apply mem_setAdd.mpr
              left
              rw [hpp] at hp2
              exact hp2
          · exact ⟨p, (mem_mapSet hnd).mpr (Or.inl ⟨hp, huu⟩), hp1, hp2⟩
        · rcases List.mem_singleton.mp hq with rfl
          have hu2 : u ∈ (truthyStr (proj c0)).toList := hu
          rw [hkey] at hu2
          rcases List.mem_singleton.mp hu2 with rfl
          exact ⟨(u, setAdd s id0), (mem_mapSet hnd).mpr (Or.inr rfl), rfl,
            mem_setAdd.mpr (Or.inr rfl)⟩

theorem indexRemove_inv {m : List (String × List String)}
    {clients : List (String × SSEClient)} {proj : SSEClient → Option String}
    {c0 : SSEClient} {id0 : String}
    (hinv : IndexInv m clients proj) (hndm : (keysOf m).Nodup)
    (hndc : (keysOf clients).Nodup) (hmem : (id0, c0) ∈ clients) :
    IndexInv (indexRemove m (truthyStr (proj c0)) id0)
      (mapDelete clients id0) proj := by
  obtain ⟨h1, h2⟩ := hinv
  have huniq : ∀ q ∈ clients, q.1 = id0 → q = (id0, c0) := by
    intro q hq hq1
    exact eq_of_mem_keys_nodup hndc hq hmem hq1
  cases hkey : truthyStr (proj c0) with
  | none =>
    rw [indexRemove_none]
    constructor
    · intro p hp
      obtain ⟨hne, hndp, hmemp⟩ := h1 p hp
      refine ⟨hne, hndp, ?_⟩
      intro id hid
      obtain ⟨q, hq, hq1, hq2⟩ := hmemp id hid
      refine ⟨q, mem_mapDelete.mpr ⟨hq, ?_⟩, hq1, hq2⟩
      intro hq0
      rw [huniq q hq hq0] at hq2
      have hq2c : truthyStr (proj c0) = some p.1 := hq2
      rw [hkey] at hq2c
      exact Option.noConfusion hq2c
    · intro q hq u hu
      exact h2 q (mem_mapDelete.mp hq).1 u hu
  | some u0 =>
    have hu0 : u0 ∈ (truthyStr (proj (id0, c0).2)).toList := by
      show u0 ∈ (truthyStr (proj c0)).toList
      rw [hkey]
      simp
    obtain ⟨p0, hp0, hp01, hid0in⟩ := h2 (id0, c0) hmem u0 hu0
    have hg : mapGet m u0 = some p0.2 := by
      have hg0 := mapGet_of_mem_nodup hndm hp0
      rwa [hp01] at hg0
    obtain ⟨hs_ne, hs_nd, hs_mem⟩ := h1 p0 hp0
    have hwne : ∀ (p : String × List String), p ∈ m → p.1 ≠ u0 →
        ∀ q ∈ clients, truthyStr (proj q.2) = some p.1 → q.1 ≠ id0 := by
      intro p hp hpne q hq hq2 hq0
      rw [huniq q hq hq0] at hq2
      have hq2c : truthyStr (proj c0) = some p.1 := hq2
      rw [hkey] at hq2c
      exact hpne (Option.some_injective _ hq2c).symm
    by_cases hemp : setDelete p0.2 id0 = []
    · rw [indexRemove_some_empty hg hemp]
      constructor
      · intro p hp
        obtain ⟨hpm, hpne⟩ := mem_mapDelete.mp hp
        obtain ⟨hne, hndp, hmemp⟩ := h1 p hpm
        refine ⟨hne, hndp, ?_⟩
        intro id hid
        obtain ⟨q, hq, hq1, hq2⟩ := hmemp id hid
        refine ⟨q, mem_mapDelete.mpr ⟨hq, ?_⟩, hq1, hq2⟩
        intro hq0
        exact hwne p hpm hpne q hq hq2 hq0
      · intro q hq u hu
        obtain ⟨hqc, hqne⟩ := mem_mapDelete.mp hq
        obtain ⟨p, hp, hp1, hqin⟩ := h2 q hqc u hu
        by_cases huu : u = u0
        · exfalso
          have hpp0 : p = p0 :=
            eq_of_mem_keys_nodup hndm hp hp0 (by rw [hp1, hp01, huu])
          rw [hpp0] at hqin
          exact hqne (setDelete_eq_nil_iff.mp hemp q.1 hqin)
        · refine ⟨p, mem_mapDelete.mpr ⟨hp, ?_⟩, hp1, hqin⟩
          rw [hp1]
          exact huu
    · rw [indexRemove_some_nonempty hg hemp]
      constructor
      · intro p hp
        rcases (mem_mapSet hndm).mp hp with ⟨hpm, hpne⟩ | rfl
        · obtain ⟨hne, hndp, hmemp⟩ := h1 p hpm
          refine ⟨hne, hndp, ?_⟩
          intro id hid
          obtain ⟨q, hq, hq1, hq2⟩ := hmemp id hid
          refine ⟨q, mem_mapDelete.mpr ⟨hq, ?_⟩, hq1, hq2⟩
          intro hq0
          exact hwne p hpm hpne q hq hq2 hq0
        · refine ⟨hemp, nodup_setDelete hs_nd, ?_⟩
          intro id hid
          obtain ⟨hids, hidne⟩ := mem_setDelete.mp hid
          obtain ⟨q, hq, hq1, hq2⟩ := hs_mem id hids
          rw [hp01] at hq2
          exact ⟨q, mem_mapDelete.mpr ⟨hq, by rw [hq1]; exact hidne⟩, hq1, hq2⟩
      · intro q hq u hu
        obtain ⟨hqc, hqne⟩ := mem_mapDelete.mp hq
        obtain ⟨p, hp, hp1, hqin⟩ := h2 q hqc u hu
        by_cases huu : u = u0
        · have hpp0 : p = p0 :=
            eq_of_mem_keys_nodup hndm hp hp0 (by rw [hp1, hp01, huu])
          refine ⟨(u0, setDelete p0.2 id0), (mem_mapSet hndm).mpr (Or.inr rfl),
            ?_, ?_⟩
          · show u0 = u
            rw [huu]
          · apply mem_setDelete.mpr
            constructor
            · rw [hpp0] at hqin
              exact hqin
            · exact hqne
        · refine ⟨p, (mem_mapSet hndm).mpr (Or.inl ⟨hp, ?_⟩), hp1, hqin⟩
          rw [hp1]
          exact huu

theorem invariant_addClient (cfg : SSEServiceConfig) (st : ManagerState)
    (c : SSEClient) (hinv : Invariant st)
    (hfresh : mapGet st.clients c.id = none) :
    Invariant (addClient cfg st c).2 := by
  obtain ⟨⟨hndc, hndu, hnds, hid⟩, hu, hs⟩ := hinv
  by_cases hcap : st.clients.length ≥ cfg.maxClients
  · simpa [addClient, hcap] using ⟨⟨hndc, hndu, hnds, hid⟩, hu, hs⟩
  · have hstep : (addClient cfg st c).2 =
        { st with
          clients := mapSet st.clients c.id c,
          totalConnections := st.totalConnections + 1,
          userClientMap := indexAdd st.userClientMap (truthyStr c.userId) c.id,
          sessionClientMap :=
            indexAdd st.sessionClientMap (truthyStr c.sessionId) c.id } := by
      simp [addClient, hcap]
    rw [hstep]
    have happ : mapSet st.clients c.id c = st.clients ++ [(c.id, c)] :=
      mapSet_of_get_none hfresh
    have hfresh2 : ∀ q ∈ st.clients, q.1 ≠ c.id := by
      intro q hq hcontra
      exact (mapGet_eq_none_iff.mp hfresh) (hcontra ▸ keysOf_mem_of_mem hq)
    refine ⟨⟨?_, ?_, ?_, ?_⟩, ?_, ?_⟩
    · exact nodup_keysOf_mapSet hndc
    · exact nodup_keysOf_indexAdd hndu
    · exact nodup_keysOf_indexAdd hnds
    · show ∀ p ∈ mapSet st.clients c.id c, p.2.id = p.1
      rw [happ]
      intro p hp
      rcases List.mem_append.mp hp with hp | hp
      · exact hid p hp
      · rcases List.mem_singleton.mp hp with rfl
        rfl
    · show IndexInv (indexAdd st.userClientMap (truthyStr c.userId) c.id)
        (mapSet st.clients c.id c) (fun cl => cl.userId)
      rw [happ]
      exact indexAdd_inv hu hndu hfresh2
    · show IndexInv (indexAdd st.sessionClientMap (truthyStr c.sessionId) c.id)
        (mapSet st.clients c.id c) (fun cl => cl.sessionId)
      rw [happ]
      exact indexAdd_inv hs hnds hfresh2

theorem invariant_removeClient (st : ManagerState) (id : String)
    (hinv : Invariant st) : Invariant (removeClient st id).2 := by
  obtain ⟨⟨hndc, hndu, hnds, hid⟩, hu, hs⟩ := hinv
  cases hg : mapGet st.clients id with
  | none =>
    have hsame : (removeClient st id).2 = st := by simp [removeClient, hg]
    rw [hsame]
    exact ⟨⟨hndc, hndu, hnds, hid⟩, hu, hs⟩
  | some c =>
    have hstep : (removeClient st id).2 =
        { st with
          clients := mapDelete st.clients id,
          userClientMap := indexRemove st.userClientMap (truthyStr c.userId) id,
          sessionClientMap :=
            indexRemove st.sessionClientMap (truthyStr c.sessionId) id } := by
      simp [removeClient, hg]
    rw [hstep]
    have hmemc : (id, c) ∈ st.clients := mapGet_mem hg
    refine ⟨⟨nodup_keysOf_mapDelete hndc, nodup_keysOf_indexRemove hndu,
      nodup_keysOf_indexRemove hnds, ?_⟩, ?_, ?_⟩
    · intro p hp
      exact hid p (mem_mapDelete.mp hp).1
    · exact indexRemove_inv hu hndu hndc hmemc
    · exact indexRemove_inv hs hnds hndc hmemc

theorem invariant_removeAll (ids : List String) :
    ∀ st : ManagerState, Invariant st → Invariant (removeAll st ids) := by
  induction ids with
  | nil => intro st h; exact h
  | cons id ids ih =>
    intro st h
    exact ih (removeClient st id).2 (invariant_removeClient st id h)

theorem invariant_cleanup (st : ManagerState) (h : Invariant st) :
    Invariant (cleanup st) :=
  invariant_removeAll _ st h

/-- A registry operation: the manager's two mutating entry points. -/
inductive RegOp where
  | add (c : SSEClient)
  | remove (id : String)
deriving DecidableEq, Repr

/-- Apply one operation; a capacity-rejected add leaves the state exactly
as the thrown exception does. -/
def applyOp (cfg : SSEServiceConfig) (st : ManagerState) : RegOp → ManagerState
  | RegOp.add c => (addClient cfg st c).2
  | RegOp.remove id => (removeClient st id).2

/-- Run a sequence of operations against the manager. -/
def runOps (cfg : SSEServiceConfig) : List RegOp → ManagerState → ManagerState
  | [], st => st
  | op :: ops, st => runOps cfg ops (applyOp cfg st op)

/-- Every add in the sequence uses an id that is not registered at the
moment of that add. -/
def FreshRun (cfg : SSEServiceConfig) : List RegOp → ManagerState → Bool
  | [], _ => true
  | op :: ops, st =>
    (match op with
     | RegOp.add c => decide (mapGet st.clients c.id = none)
     | RegOp.remove _ => true) && FreshRun cfg ops (applyOp cfg st op)

/-- C2 (amended): for every sequence of `addClient`/`removeClient`
operations in which each add uses an id not currently registered, the
`userId` and `sessionId` indexes contain exactly the ids of
currently-registered handles grouped by their truthy `userId`/`sessionId`,
and an index key is deleted as soon as its member set becomes empty
(`Invariant` holds after every prefix, starting from any invariant state
such as the empty manager). -/
theorem registry_index_invariant_fresh_ids (cfg : SSEServiceConfig) :
    ∀ (ops : List RegOp) (st : ManagerState), Invariant st →
      FreshRun cfg ops st = true → Invariant (runOps cfg ops st) := by
  intro ops
  induction ops with
  | nil => intro st h _; exact h
  | cons op ops ih =>
    intro st h hf
    cases op with
    | add c =>
      rw [show FreshRun cfg (RegOp.add c :: ops) st =
          (decide (mapGet st.clients c.id = none) &&
            FreshRun cfg ops (applyOp cfg st (RegOp.add c))) from rfl,
        Bool.and_eq_true] at hf
      obtain ⟨hop, hf2⟩ := hf
      exact ih _ (invariant_addClient cfg st c h (of_decide_eq_true hop)) hf2
    | remove id =>
      rw [show FreshRun cfg (RegOp.remove id :: ops) st =
          (true && FreshRun cfg ops (applyOp cfg st (RegOp.remove id))) from rfl,
        Bool.true_and] at hf
      exact ih _ (invariant_removeClient st id h) hf

/-- Witness for C2: a concrete fresh add followed by its removal keeps the
invariant. -/
theorem registry_index_invariant_witness :
    Invariant emptyManager ∧
    FreshRun cfgShort [RegOp.add clientA, RegOp.remove "a"] emptyManager = true ∧
    Invariant (runOps cfgShort [RegOp.add clientA, RegOp.remove "a"] emptyManager) :=
  ⟨invariant_emptyManager, by decide,
    registry_index_invariant_fresh_ids cfgShort
      [RegOp.add clientA, RegOp.remove "a"] emptyManager invariant_emptyManager
      (by decide)⟩

/-- A first client registered under id `a` for user `u1`. -/
def dupA1 : SSEClient :=
  { id := "a", userId := some "u1", sessionId := none,
    controller := { failing := false, written := [] },
    connectedAt := 0, lastPing := none }

/-- A second client reusing id `a`, now for user `u2`. -/
def dupA2 : SSEClient :=
  { id := "a", userId := some "u2", sessionId := none,
    controller := { failing := false, written := [] },
    connectedAt := 0, lastPing := none }

/-- C2 counterexample: over the unrestricted operation sequences the claim
quantifies, adding a second client under an already-registered id
overwrites the primary-map entry but leaves the old user index entry
behind — `u1` still lists id `a` though the registered handle under `a`
belongs to `u2` — so the indexes are not exact. -/
theorem index_invariant_duplicate_id_counterexample :
    (runOps cfgShort [RegOp.add dupA1, RegOp.add dupA2] emptyManager).clients =
      [("a", dupA2)] ∧
    (runOps cfgShort [RegOp.add dupA1, RegOp.add dupA2] emptyManager).userClientMap =
      [("u1", ["a"]), ("u2", ["a"])] ∧
    ¬ IndexInv
        (runOps cfgShort [RegOp.add dupA1, RegOp.add dupA2] emptyManager).userClientMap
        (runOps cfgShort [RegOp.add dupA1, RegOp.add dupA2] emptyManager).clients
        (fun c => c.userId) := by
  refine ⟨by decide, by decide, ?_⟩
  unfold IndexInv
  decide

/-! ### Service reset (C1) -/

theorem indexInv_empty_clients {m : List (String × List String)}
    {proj : SSEClient → Option String}
    (h : IndexInv m [] proj) : m = [] := by
  obtain ⟨h1, _⟩ := h
  cases hm : m with
  | nil => rfl
  | cons p rest =>
    exfalso
    have hp : p ∈ m := by
      rw [hm]
      exact List.mem_cons_self _ _
    obtain ⟨hne, _, hmem⟩ := h1 p hp
    cases hsp : p.2 with
    | nil => exact hne hsp
    | cons id ids =>
      obtain ⟨q, hq, _⟩ := hmem id (by rw [hsp]; exact List.mem_cons_self _ _)
      simp at hq

/-- A service whose registry has seen one connection, one dispatched event
and one error. -/
def svcBusy : ServiceState :=
  { config := cfgShort,
    manager :=
      incrementErrors
        (incrementEventsDispatched (addClient cfgShort emptyManager clientA).2),
    heartbeatRunning := true,
    cleanupRunning := true }

/-- C1 counterexample: after `reset()` the metrics counters are not
zeroed — `totalConnections`, `eventsDispatched` and `errors` all keep
their pre-reset value 1 while only the registry itself is cleared. -/
theorem reset_counters_counterexample :
    getMetrics (SSEService.reset svcBusy).manager =
      { activeConnections := 0, totalConnections := 1,
        eventsDispatched := 1, errors := 1 } ∧
    ¬ (SSEService.reset svcBusy).manager.totalConnections = 0 :=
  ⟨by decide, by decide⟩

/-- C1 (amended): `reset()` clears the registry — no clients remain, and
under the registry invariant both secondary indexes are emptied with it —
keeps the configuration and restarts both scheduler timers, but the
`totalConnections`, `eventsDispatched` and `errors` counters retain their
pre-reset values instead of being zeroed. -/
theorem reset_clears_registry_keeps_counters (svc : ServiceState)
    (hinv : Invariant svc.manager) :
    (SSEService.reset svc).config = svc.config ∧
    (SSEService.reset svc).heartbeatRunning = true ∧
    (SSEService.reset svc).cleanupRunning = true ∧
    (SSEService.reset svc).manager.clients = [] ∧
    (SSEService.reset svc).manager.userClientMap = [] ∧
    (SSEService.reset svc).manager.sessionClientMap = [] ∧
    (SSEService.reset svc).manager.totalConnections =
      svc.manager.totalConnections ∧
    (SSEService.reset svc).manager.eventsDispatched =
      svc.manager.eventsDispatched ∧
    (SSEService.reset svc).manager.errors = svc.manager.errors := by
  have hcl : (cleanup svc.manager).clients = [] := cleanup_clients svc.manager
  obtain ⟨_, hu2, hs2⟩ := invariant_cleanup svc.manager hinv
  rw [hcl] at hu2 hs2
  exact ⟨rfl, rfl, rfl, hcl, indexInv_empty_clients hu2,
    indexInv_empty_clients hs2, (cleanup_counters _).1,
    (cleanup_counters _).2.1, (cleanup_counters _).2.2⟩

/-- Witness for the amended C1 at a concrete busy service. -/
theorem reset_amended_witness :
    Invariant svcBusy.manager ∧
    (SSEService.reset svcBusy).manager.clients = [] ∧
    (SSEService.reset svcBusy).manager.totalConnections =
      svcBusy.manager.totalConnections := by
  have hinv : Invariant svcBusy.manager := by
    unfold Invariant ManagerWF IndexInv
    decide
  exact ⟨hinv, (reset_clears_registry_keeps_counters svcBusy hinv).2.2.2.1,
    (reset_clears_registry_keeps_counters svcBusy hinv).2.2.2.2.2.2.1⟩
